import Mathlib

/-!
# ROSASList: reconciliation of a RouterOS address-list with per-ASN prefix caches

A shallow embedding of `main.go`.  Go slices are modelled with their backing
array made explicit, because `compare` deletes elements in place and
`ROSUpdate` keeps using the slice it passed in.  The RouterOS client, the
file system, the clock and the HTTP client are external: their answers are
inputs of the model.
-/

set_option autoImplicit false

namespace ROSASList

/-! ## Go slices of strings -/

/-- A Go `[]string` value: the cells of the backing array that the slice can
reach (`arr`, from the slice's first cell up to its capacity) and the slice
length `len`.  Two slice headers over the same array share `arr`. -/
structure Slice where
  arr : List String
  len : Nat
deriving DecidableEq, Repr

/-- The slice produced by appending the elements of `l` one by one to a nil
slice (spare capacity, which `compare` never touches, is left out). -/
def Slice.ofList (l : List String) : Slice := ⟨l, l.length⟩

/-- The elements a slice header denotes: the first `len` cells. -/
def Slice.view (a : Slice) : List String := a.arr.take a.len

/-- The slice invariant `len(a) <= cap(a)`. -/
def Slice.WF (a : Slice) : Prop := a.len ≤ a.arr.length

/-- Go's `a[i]`: `none` stands for the index-out-of-range panic. -/
def Slice.index (a : Slice) (i : Nat) : Option String :=
  if i < a.len then a.arr[i]? else none

/-- Go's `append(a[:i], a[i+1:]...)`.  The destination `a[:i]` keeps the
capacity of `a`, so the `len(a)-i-1` elements of `a[i+1:]` are copied into the
same backing array starting at cell `i`; the cells from `len(a)-1` on keep
their old contents.  `none` is the slice-bounds panic of `a[i+1:]`. -/
def Slice.deleteAt (a : Slice) (i : Nat) : Option Slice :=
  if i + 1 ≤ a.len then
    let src := (a.arr.drop (i + 1)).take (a.len - (i + 1))
    some { arr := a.arr.take i ++ src ++ a.arr.drop (i + src.length),
           len := i + src.length }
  else none

/-- The inner loop of `compare` (`for _, vD := range b`) at index `i`: the
first `vD` equal to `a[i]` deletes cell `i` and breaks. -/
def compareInner (a : Slice) (i : Nat) : List String → Option Slice
  | [] => some a
  | vD :: rest =>
    match a.index i with
    | none => none
    | some x => if x = vD then a.deleteAt i else compareInner a i rest

/-- The outer loop of `compare`; `compareOuter b n a` runs the iterations
`i = n-1, n-2, ..., 0`. -/
def compareOuter (b : List String) : Nat → Slice → Option Slice
  | 0, a => some a
  | i + 1, a =>
    match compareInner a i b with
    | none => none
    | some a1 => compareOuter b i a1

/-- `func compare(a, b []string) []string`.  `b` is only read, and in
`ROSUpdate` it never shares storage with `a`, so its elements suffice.  The
returned slice carries the state of `a`'s backing array after the call. -/
def compare (a : Slice) (b : List String) : Option Slice :=
  compareOuter b a.len a

/-- Lines 109-110 of `ROSUpdate`:
`needremove := compare(curentlist, needlist)` followed by
`needadd := compare(needlist, curentlist)`.  The second call reads
`curentlist` through the caller's header (the original length) over the array
the first call has rewritten. -/
def diffLists (curentlist needlist : Slice) : Option (List String × List String) :=
  match compare curentlist needlist.view with
  | none => none
  | some needremove =>
    let curentlist1 : Slice := { arr := needremove.arr, len := curentlist.len }
    match compare needlist curentlist1.view with
    | none => none
    | some needadd => some (needremove.view, needadd.view)

/-! ## Configuration -/

/-- The fields of `Opts` the modelled code reads. -/
structure Opts where
  List : String
  ASN : String
  Cachettl : Int
  Cachepath : String

/-! ## The RouterOS API client -/

/-- Attribute names used in API words (`list`, `comment`, `address`, `.id`). -/
inductive Attr
  | list
  | comment
  | address
  | id
deriving DecidableEq, Repr

/-- The name of an attribute as it is written in a word. -/
def Attr.name : Attr → String
  | .list => "list"
  | .comment => "comment"
  | .address => "address"
  | .id => ".id"

/-- The three sentences `ROSUpdate` sends through `c.Run`:
`/ip/firewall/address-list/print` with its `?attr=value` query words and its
`=.proplist=attr` word, `/ip/firewall/address-list/remove` with `=.id=`, and
`/ip/firewall/address-list/add` with `=list=`, `=address=`, `=comment=`. -/
inductive Cmd
  | print (query : List (Attr × String)) (proplist : Attr)
  | remove (id : String)
  | add (list address comment : String)
deriving DecidableEq, Repr

/-- A key/value pair of a reply sentence (`proto.Pair`). -/
structure Pair where
  Key : String
  Value : String
deriving DecidableEq, Repr

/-- A reply (`routeros.Reply`): `Re` holds one pair list per `!re` sentence. -/
structure Reply where
  Re : List (List Pair)
deriving DecidableEq, Repr

/-- A connected client over a device state `σ`: `Run` sends one sentence and
returns the reply or an error, and the device state afterwards. -/
structure Client (σ : Type) where
  Run : σ → Cmd → Except String Reply × σ

/-- How a call of `ROSUpdate` ends: it returns `err` (`none` is `nil`), or the
process dies of an index-out-of-range panic. -/
inductive Exit
  | returned (err : Option String)
  | panicked
deriving DecidableEq, Repr

/-- One sentence sent to the device, with the error it came back with. -/
abbrev Sent := Cmd × Option String

/-- The observable result of one `ROSUpdate` call: how it ended, the device
state it left, and the sentences it sent in order. -/
structure Session (σ : Type) where
  exit : Exit
  state : σ
  trace : List Sent

/-- Lines 95-98: `curentlist = append(curentlist, re.List[0].Value)` for every
reply sentence; `none` is the panic of `re.List[0]` on an empty sentence. -/
def readAddresses : List (List Pair) → Option (List String)
  | [] => some []
  | re :: rest =>
    match re with
    | [] => none
    | p :: _ =>
      match readAddresses rest with
      | none => none
      | some l => some (p.Value :: l)

/-- Lines 113-124, the loop over `needremove`.  The first component is `none`
when the loop runs to its end, and the way `ROSUpdate` ends otherwise. -/
def removeLoop {σ : Type} (c : Client σ) (options : Opts) (namelist : String) :
    List String → σ → Option Exit × σ × List Sent
  | [], s => (none, s, [])
  | l :: rest, s =>
    let q := Cmd.print
      [(Attr.list, options.List), (Attr.comment, namelist), (Attr.address, l)] Attr.id
    match c.Run s q with
    | (.error e, s1) => (some (.returned (some e)), s1, [(q, some e)])
    | (.ok r, s1) =>
      match r.Re with
      | [] => (some .panicked, s1, [(q, none)])
      | [] :: _ => (some .panicked, s1, [(q, none)])
      | (p :: _) :: _ =>
        let d := Cmd.remove p.Value
        match c.Run s1 d with
        | (.error e, s2) => (some (.returned (some e)), s2, [(q, none), (d, some e)])
        | (.ok _, s2) =>
          match removeLoop c options namelist rest s2 with
          | (x, s3, tr) => (x, s3, (q, none) :: (d, none) :: tr)

/-- Lines 125-131, the loop over `needadd`. -/
def addLoop {σ : Type} (c : Client σ) (options : Opts) (namelist : String) :
    List String → σ → Option Exit × σ × List Sent
  | [], s => (none, s, [])
  | l :: rest, s =>
    let a := Cmd.add options.List l namelist
    match c.Run s a with
    | (.error e, s1) => (some (.returned (some e)), s1, [(a, some e)])
    | (.ok _, s1) =>
      match addLoop c options namelist rest s1 with
      | (x, s2, tr) => (x, s2, (a, none) :: tr)

/-! ## Reading the cache file -/

/-- `bufio.MaxScanTokenSize`: the size limit of a `bufio.Scanner` buffer. -/
def MaxScanTokenSize : Nat := 64 * 1024

/-- Go's `len` of a string: the number of bytes of its UTF-8 encoding. -/
def byteLen (cs : List Char) : Nat := (cs.map Char.utf8Size).sum

/-- The `dropCR` of `bufio.ScanLines`: one trailing carriage return is dropped. -/
def dropCR (tok : List Char) : List Char :=
  if tok.getLast? = some '\r' then tok.dropLast else tok

/-- The tokens `scanner.Scan()` / `scanner.Text()` deliver for a default
`bufio.Scanner` (split function `ScanLines`): `tok` is the line read so far.
A line ends at `'\n'`; the line and its newline must fit the buffer of
`MaxScanTokenSize` bytes, otherwise `Scan` returns false (`ErrTooLong`) and
the loop of `ROSUpdate`, which never looks at `scanner.Err()`, ends there.
A last line without newline is delivered when it is not empty. -/
def scanTokens : List Char → List Char → List String
  | [], tok =>
    if tok = [] then []
    else if byteLen tok < MaxScanTokenSize then [String.mk (dropCR tok)] else []
  | c :: rest, tok =>
    if c = '\n' then
      if byteLen tok < MaxScanTokenSize then String.mk (dropCR tok) :: scanTokens rest []
      else []
    else scanTokens rest (tok ++ [c])

/-- Lines 104-108: `needlist` is every token of the scanner, in order. -/
def scanLines (content : String) : List String := scanTokens content.data []

/-- `func ROSUpdate(as string) (err error)`.  The outcome of `dial()`
(`dialErr`), the device behind the connection (`c`, `s`) and the outcome of
`os.Open` on the cache file (`file`: an error, or the file's content) are
inputs. -/
def ROSUpdate {σ : Type} (c : Client σ) (options : Opts) (dialErr : Option String)
    (file : Except String String) (s : σ) (as : String) : Session σ :=
  match dialErr with
  | some e => ⟨.returned (some e), s, []⟩
  | none =>
    let namelist := "ASN" ++ as
    let q := Cmd.print [(Attr.list, options.List), (Attr.comment, namelist)] Attr.address
    match c.Run s q with
    | (.error e, s1) => ⟨.returned (some e), s1, [(q, some e)]⟩
    | (.ok reply, s1) =>
      match readAddresses reply.Re with
      | none => ⟨.panicked, s1, [(q, none)]⟩
      | some addresses =>
        let curentlist := Slice.ofList addresses
        match file with
        | .error e => ⟨.returned (some e), s1, [(q, none)]⟩
        | .ok content =>
          let needlist := Slice.ofList (scanLines content)
          match diffLists curentlist needlist with
          | none => ⟨.panicked, s1, [(q, none)]⟩
          | some (needremove, needadd) =>
            match removeLoop c options namelist needremove s1 with
            | (some x, s2, tr) => ⟨x, s2, (q, none) :: tr⟩
            | (none, s2, tr) =>
              match addLoop c options namelist needadd s2 with
              | (some x, s3, tr2) => ⟨x, s3, (q, none) :: (tr ++ tr2)⟩
              | (none, s3, tr2) => ⟨.returned none, s3, (q, none) :: (tr ++ tr2)⟩

/-! ## A device holding address-list entries -/

/-- An address-list entry of the device. -/
structure Entry where
  id : String
  address : String
  list : String
  comment : String
deriving DecidableEq, Repr

/-- The value of an attribute of an entry. -/
def Entry.attr (e : Entry) : Attr → String
  | .list => e.list
  | .comment => e.comment
  | .address => e.address
  | .id => e.id

/-- An entry matches a query when it matches every `?attr=value` word. -/
def Entry.matchesQuery (e : Entry) (query : List (Attr × String)) : Bool :=
  query.all (fun w => decide (e.attr w.1 = w.2))

/-- The device behind the API, which is not part of the program: a
collection of entries (id, address, list, comment), a counter for the ids it
hands out, and for each sentence still to come whether the device answers it
with an error (`some e`; an exhausted list means no more errors). -/
structure Device where
  entries : List Entry
  nextId : Nat
  faults : List (Option String)
deriving DecidableEq, Repr

/-- The entries a `print` with the given query returns. -/
def Device.matching (d : Device) (query : List (Attr × String)) : List Entry :=
  d.entries.filter (fun e => e.matchesQuery query)

/-- The device's answer to a sentence it does not reject: `print` returns the
requested attribute of every entry matching all query words, `remove` deletes
the entry with the given id (an unknown id is an error), `add` creates an
entry under a new id. -/
def Device.exec (d : Device) : Cmd → Except String Reply × Device
  | .print query proplist =>
    (.ok ⟨(d.matching query).map (fun e => [⟨proplist.name, e.attr proplist⟩])⟩, d)
  | .remove id =>
    if d.entries.any (fun e => decide (e.id = id)) then
      (.ok ⟨[]⟩, { d with entries := d.entries.filter (fun e => decide (e.id ≠ id)) })
    else (.error "no such item", d)
  | .add list address comment =>
    (.ok ⟨[]⟩, { d with
      entries := d.entries ++ [⟨"*" ++ toString d.nextId, address, list, comment⟩],
      nextId := d.nextId + 1 })

/-- One sentence sent to the device: the next fault, if any, makes it fail
without effect. -/
def Device.Run (d : Device) (cmd : Cmd) : Except String Reply × Device :=
  match d.faults with
  | some e :: rest => (.error e, { d with faults := rest })
  | none :: rest => Device.exec { d with faults := rest } cmd
  | [] => Device.exec d cmd

/-- The client connected to a `Device`. -/
def deviceClient : Client Device := ⟨Device.Run⟩

/-! ## The cache -/

/-- What `os.Stat` reports for a path: the file is missing
(`os.IsNotExist`), another error, or the file's modification time in Unix
seconds. -/
inductive StatResult
  | notExist
  | failed
  | info (modTime : Int)
deriving DecidableEq, Repr

/-- `func fileExists(filename string) bool`. -/
def fileExists (stat : String → StatResult) (filename : String) : Bool :=
  match stat filename with
  | .notExist => false
  | _ => true

/-- The value of an `int64` after arithmetic: two's complement wrap-around. -/
def wrapInt64 (x : Int) : Int := (x + 2 ^ 63) % 2 ^ 64 - 2 ^ 63

/-- `func CacheLive(asn string) bool`; `stat` is the file system as seen by
`os.Stat` and `secNow` is `time.Now().Unix()`. -/
def CacheLive (options : Opts) (stat : String → StatResult) (secNow : Int)
    (asn : String) : Bool :=
  let file := options.Cachepath ++ "/" ++ asn ++ ".asn"
  if fileExists stat file == false then false
  else
    match stat file with
    | .info secF =>
      let ageseccach := wrapInt64 (secNow - secF)
      if ageseccach > options.Cachettl then false else true
    | _ => false

/-- One element of `data.ipv4_prefixes`. -/
structure Prefix_IPv4 where
  Ip : String
  Cidr : Int
deriving DecidableEq, Repr

/-- Go's `strconv.Itoa`: the decimal digits, after a minus sign when negative. -/
def Itoa (i : Int) : String := toString i

/-- Line 220: `str := s.Ip + "/" + strconv.Itoa(s.Cidr)`. -/
def cacheLine (s : Prefix_IPv4) : String := s.Ip ++ "/" ++ Itoa s.Cidr

/-- Lines 219-222: every prefix is written by `fmt.Fprintln(fo, str)`, which
ends the line with a newline. -/
def cacheText : List Prefix_IPv4 → String
  | [] => ""
  | s :: rest => cacheLine s ++ "\n" ++ cacheText rest

/-- The outcomes of the external calls `UpdateCache` makes, in the order it
makes them; `parsed` is the `ipv4_prefixes` array `json.Unmarshal` decodes,
`none` when it returns an error.  `openErr` is the error of `os.OpenFile`,
which the code discards: `fo` is then nil and `fo.Truncate` fails. -/
structure FetchEnv where
  newRequestErr : Bool
  getErr : Bool
  readErr : Bool
  parsed : Option (List Prefix_IPv4)
  createErr : Bool
  closeErr : Bool
  openErr : Bool
  truncateErr : Bool
deriving DecidableEq, Repr

/-- How a call of `UpdateCache` ends: `log.Fatal` prints and calls
`os.Exit(1)`, so the `return false` after it is never reached; otherwise the
call returns, having written `written` to the cache file. -/
inductive UpdateResult
  | fatal
  | returned (value : Bool) (written : String)
deriving DecidableEq, Repr

/-- `func UpdateCache(asn string) bool`. -/
def UpdateCache (options : Opts) (stat : String → StatResult) (env : FetchEnv)
    (asn : String) : UpdateResult :=
  if env.newRequestErr then .fatal
  else if env.getErr then .fatal
  else if env.readErr then .fatal
  else
    match env.parsed with
    | none => .fatal
    | some prefixes =>
      let fln := options.Cachepath ++ "/" ++ asn ++ ".asn"
      if fileExists stat fln == false && env.createErr then .fatal
      else if fileExists stat fln == false && env.closeErr then .fatal
      else if env.openErr || env.truncateErr then .fatal
      else .returned true (cacheText prefixes)

/-- An address string of `MaxScanTokenSize` bytes without any line break. -/
def longIp : String := String.mk (List.replicate 65536 '1')

/-! ## Shapes of traces -/

/-- Whether a sentence is an `add`. -/
def Cmd.isAdd : Cmd → Bool
  | .add _ _ _ => true
  | _ => false

/-- Every sentence of the trace was answered without error. -/
def okAll (tr : List Sent) : Prop := ∀ y ∈ tr, y.2 = none

/-- At most the last sentence of the trace failed, and then `exit` returns
its error. -/
def FailsLast (tr : List Sent) (exit : Option Exit) : Prop :=
  okAll tr ∨ ∃ pre cmd e, tr = pre ++ [(cmd, some e)] ∧ okAll pre ∧
    exit = some (.returned (some e))

/-- Whether a sentence carries the list name and the tag: a `print` as query
words, an `add` as attribute words; a `remove` carries neither. -/
def Cmd.scoped (list tag : String) : Cmd → Bool
  | .print query _ => decide ((Attr.list, list) ∈ query ∧ (Attr.comment, tag) ∈ query)
  | .add l _ cm => decide (l = list ∧ cm = tag)
  | .remove _ => true

/-- An entry belongs to the reconciliation of an ASN when it is in the
configured list and carries the tag of the ASN as comment. -/
def Entry.owned (list tag : String) (e : Entry) : Bool :=
  decide (e.list = list ∧ e.comment = tag)

/-- The entries that do not belong to the reconciliation, in device order. -/
def Device.foreign (d : Device) (list tag : String) : List Entry :=
  d.entries.filter (fun e => !e.owned list tag)

/-! ## The main loop -/

/-- Go's `strings.Split(s, ",")` on the characters of `s`; `cur` is the piece
read so far. -/
def splitComma : List Char → List Char → List String
  | [], cur => [String.mk cur]
  | c :: rest, cur =>
    if c = ',' then String.mk cur :: splitComma rest [] else splitComma rest (cur ++ [c])

/-- What the outside world answers during one iteration of the loop of
`main`: the file system and the clock seen by `CacheLive` and `UpdateCache`,
the outcomes of the calls of `UpdateCache`, and for `ROSUpdate` the outcome
of `dial()`, the device and the outcome of opening the cache file. -/
structure IterEnv (σ : Type) where
  stat : String → StatResult
  secNow : Int
  fetch : FetchEnv
  dialErr : Option String
  dev : σ
  file : Except String String

/-- What one iteration of the loop of `main` did: the value of
`CacheLive(as)`, the result of `UpdateCache(as)` when it was called, and the
session of `ROSUpdate(as)` when it was called. -/
structure AsnRun (σ : Type) where
  as : String
  live : Bool
  update : Option UpdateResult
  ros : Option (Session σ)

/-- How the loop of `main` ends. -/
inductive Ending
  | done
  | exited
  | crashed
deriving DecidableEq, Repr

/-- Lines 72-77: the call of `ROSUpdate(as)`.  A returned error is logged and
the loop goes on (`continue`); a panic ends the process.  The second
component is `none` when the loop goes on to the next ASN. -/
def rosStep {σ : Type} (c : Client σ) (options : Opts) (w : IterEnv σ) (as : String)
    (live : Bool) (update : Option UpdateResult) : AsnRun σ × Option Ending :=
  let r := ROSUpdate c options w.dialErr w.file w.dev as
  match r.exit with
  | .panicked => (⟨as, live, update, some r⟩, some .crashed)
  | .returned _ => (⟨as, live, update, some r⟩, none)

/-- Lines 64-78, the body of the loop of `main` for one ASN. -/
def loopBody {σ : Type} (c : Client σ) (options : Opts) (w : IterEnv σ) (as : String) :
    AsnRun σ × Option Ending :=
  let live := CacheLive options w.stat w.secNow as
  if live == false then
    match UpdateCache options w.stat w.fetch as with
    | .fatal => (⟨as, live, some .fatal, none⟩, some .exited)
    | .returned false written => (⟨as, live, some (.returned false written), none⟩, none)
    | .returned true written => rosStep c options w as live (some (.returned true written))
  else rosStep c options w as live none

/-- Lines 63-79, `for _, as := range asns`; `k` counts the iterations and
`world k` is what the outside answers during iteration `k`.  The result is
what every iteration that was started did, and how the loop ended. -/
def mainLoop {σ : Type} (c : Client σ) (options : Opts) (world : Nat → IterEnv σ) :
    Nat → List String → List (AsnRun σ) × Ending
  | _, [] => ([], .done)
  | k, as :: rest =>
    match loopBody c options (world k) as with
    | (r, some e) => ([r], e)
    | (r, none) =>
      match mainLoop c options world (k + 1) rest with
      | (runs, e) => (r :: runs, e)

/-- Lines 57-79 of `main`, after the arguments are parsed and the cache
directory is checked. -/
def main {σ : Type} (c : Client σ) (options : Opts) (world : Nat → IterEnv σ) :
    List (AsnRun σ) × Ending :=
  let options := if options.Cachettl = 0 then { options with Cachettl := 86400 } else options
  mainLoop c options world 0 (splitComma options.ASN.data [])

/-! ## Example inputs -/

/-- The options of the examples: list `bogons`, two ASNs. -/
def sampleOpts : Opts := ⟨"bogons", "64500,64501", 86400, "./tmp"⟩

/-- A device with two entries tagged for AS64500 in list `bogons`, one entry
of the same list and address tagged for AS64501, and one entry of another
list. -/
def sampleDevice : Device :=
  { entries := [⟨"*1", "10.0.0.0/8", "bogons", "ASN64500"⟩,
                ⟨"*2", "12.0.0.0/8", "bogons", "ASN64500"⟩,
                ⟨"*3", "12.0.0.0/8", "bogons", "ASN64501"⟩,
                ⟨"*4", "12.0.0.0/8", "other", "ASN64500"⟩],
    nextId := 5,
    faults := [] }

/-- A lookup that succeeds with the given prefixes. -/
def fetchOk (prefixes : List Prefix_IPv4) : FetchEnv :=
  ⟨false, false, false, some prefixes, false, false, false, false⟩

/-- A lookup whose HTTP request fails (`spaceClient.Do` returns an error). -/
def fetchTransportError : FetchEnv :=
  ⟨false, true, false, none, false, false, false, false⟩

/-- A run in which no cache file exists and the lookup service cannot be
reached. -/
def worldOffline : Nat → IterEnv Device := fun _ =>
  { stat := fun _ => .notExist, secNow := 1700000000, fetch := fetchTransportError,
    dialErr := none, dev := sampleDevice, file := .error "no such file" }

/-- A run in which every cache file was written 100 seconds ago and holds
`12.0.0.0/8` and `13.0.0.0/8`. -/
def worldFresh : Nat → IterEnv Device := fun _ =>
  { stat := fun _ => .info 1699999900, secNow := 1700000000, fetch := fetchTransportError,
    dialErr := none, dev := sampleDevice, file := .ok "12.0.0.0/8\n13.0.0.0/8\n" }

/-- `Slice.WF` is a comparison of two numbers. -/
instance (a : Slice) : Decidable a.WF := inferInstanceAs (Decidable (a.len ≤ a.arr.length))

/-! ## The in-place deletion of `compare` -/

/-- The cell read by the iteration at index `p.length`. -/
theorem index_split (p q t : List String) (x : String) :
    Slice.index ⟨p ++ x :: (q ++ t), p.length + 1 + q.length⟩ p.length = some x := by
  have h : p.length < p.length + 1 + q.length := by omega
  simp only [Slice.index, h, if_true]
  rw [List.getElem?_append_right (le_refl _)]
  simp

/-- Deleting the cell at index `p.length`: the kept cells `q` move one cell
down and the last cell of the old slice stays behind. -/
theorem deleteAt_split (p q t : List String) (x : String) :
    Slice.deleteAt ⟨p ++ x :: (q ++ t), p.length + 1 + q.length⟩ p.length
      = some ⟨p ++ (q ++ ((x :: q).drop q.length ++ t)), p.length + q.length⟩ := by
  have h1 : p.length + 1 ≤ p.length + 1 + q.length := by omega
  have e1 : List.take p.length (p ++ x :: (q ++ t)) = p := by simp
  have e2 : List.drop (p.length + 1) (p ++ x :: (q ++ t)) = q ++ t := by
    rw [List.drop_append_eq_append_drop]; simp
  have e3 : p.length + 1 + q.length - (p.length + 1) = q.length := by omega
  have e4 : List.take q.length (q ++ t) = q := by simp
  have e5 : List.drop (p.length + q.length) (p ++ x :: (q ++ t))
      = (x :: q).drop q.length ++ t := by
    rw [List.drop_append_eq_append_drop]
    have h2 : p.length + q.length - p.length = q.length := by omega
    have h3 : List.drop (p.length + q.length) p = [] := by simp
    have h4 : x :: (q ++ t) = (x :: q) ++ t := by simp
    rw [h2, h3, h4, List.drop_append_of_le_length (by simp)]
    simp
  simp only [Slice.deleteAt, h1, if_true, e1, e2, e3, e4, e5, List.append_assoc]

/-- One run of the inner loop on the cell `x` at index `p.length`. -/
theorem compareInner_split (b p q t : List String) (x : String) :
    compareInner ⟨p ++ x :: (q ++ t), p.length + 1 + q.length⟩ p.length b
      = if x ∈ b then
          some ⟨p ++ (q ++ ((x :: q).drop q.length ++ t)), p.length + q.length⟩
        else some ⟨p ++ x :: (q ++ t), p.length + 1 + q.length⟩ := by
  induction b with
  | nil => simp [compareInner]
  | cons vD rest ih =>
    simp only [compareInner, index_split]
    by_cases hx : x = vD
    · simp [hx, deleteAt_split]
    · simp only [hx, if_false, ih, List.mem_cons, false_or]

/-- The outer loop over the unprocessed prefix `p`, with `q` already kept. -/
theorem compareOuter_split (b : List String) (p : List String) :
    ∀ q t : List String, ∃ t1 : List String,
      compareOuter b p.length ⟨p ++ (q ++ t), p.length + q.length⟩
        = some ⟨p.filter (fun x => decide (x ∉ b)) ++ (q ++ t1),
                (p.filter (fun x => decide (x ∉ b))).length + q.length⟩ := by
  induction p using List.reverseRecOn with
  | nil => intro q t; exact ⟨t, by simp [compareOuter]⟩
  | append_singleton p x ih =>
    intro q t
    have hl : (p ++ [x]).length = p.length + 1 := by simp
    have ha : (p ++ [x]) ++ (q ++ t) = p ++ x :: (q ++ t) := by simp
    rw [hl, ha]
    simp only [compareOuter]
    rw [compareInner_split]
    by_cases hx : x ∈ b
    · simp only [hx, if_true]
      obtain ⟨t1, h⟩ := ih q ((x :: q).drop q.length ++ t)
      refine ⟨t1, ?_⟩
      rw [h]; simp [List.filter_append, hx]
    · simp only [hx, if_false]
      obtain ⟨t1, h⟩ := ih (x :: q) t
      refine ⟨t1, ?_⟩
      have e1 : p.length + 1 + q.length = p.length + (x :: q).length := by
        simp only [List.length_cons]; omega
      have e2 : p ++ x :: (q ++ t) = p ++ (x :: q ++ t) := by simp
      rw [e1, e2, h]
      simp [List.filter_append, hx]
      omega

/-- When every element is found in `b`, each deletion hits the last cell of
the current slice, so nothing moves in the backing array. -/
theorem compareOuter_all_mem (b : List String) (p : List String) :
    ∀ t : List String, (∀ x ∈ p, x ∈ b) →
      compareOuter b p.length ⟨p ++ t, p.length⟩ = some ⟨p ++ t, 0⟩ := by
  induction p using List.reverseRecOn with
  | nil => intro t _; simp [compareOuter]
  | append_singleton p x ih =>
    intro t hall
    have hx : x ∈ b := hall x (by simp)
    have hp : ∀ y ∈ p, y ∈ b := fun y hy => hall y (by simp [hy])
    have hl : (p ++ [x]).length = p.length + 1 := by simp
    have ha : (p ++ [x]) ++ t = p ++ x :: ([] ++ t) := by simp
    have hn : p.length + 1 = p.length + 1 + ([] : List String).length := by simp
    rw [hl, ha]
    simp only [compareOuter]
    conv_lhs => rw [hn]
    rw [compareInner_split]
    simp only [hx, if_true]
    have := ih (x :: t) hp
    simpa using this

/-- The two results of lines 109-110 on equal lists. -/
theorem diffLists_self (l : List String) :
    diffLists (Slice.ofList l) (Slice.ofList l) = some ([], []) := by
  have h : compare (Slice.ofList l) l = some ⟨l, 0⟩ := by
    have := compareOuter_all_mem l l [] (fun _ hx => hx)
    simpa [compare, Slice.ofList] using this
  have hv : (Slice.ofList l).view = l := by simp [Slice.view, Slice.ofList]
  have hv2 : Slice.view ⟨l, (Slice.ofList l).len⟩ = l := by simp [Slice.view, Slice.ofList]
  simp only [diffLists, hv, h, hv2]
  simp [Slice.view]

/-- C2. For every slice `a` (any backing array, `len <= cap`) and every list
`b`, `compare(a, b)` returns, without panicking, exactly the elements of `a`
that do not occur in `b`, in the order of `a`, every occurrence judged on its
own; and the `needremove` of `ROSUpdate` is therefore every element of
`curentlist` that is absent from `needlist`, in the order of `curentlist`. -/
theorem compare_returns_absent (a : Slice) (b : List String) (h : a.WF) :
    (∃ r, compare a b = some r ∧ r.view = a.view.filter (fun x => decide (x ∉ b))) ∧
    (∀ needlist : Slice, needlist.WF →
      ∃ needadd, diffLists a needlist
        = some (a.view.filter (fun x => decide (x ∉ needlist.view)), needadd)) := by
  have key : ∀ (a : Slice) (b : List String), a.WF →
      ∃ r, compare a b = some r ∧ r.view = a.view.filter (fun x => decide (x ∉ b)) := by
    intro a b h
    obtain ⟨t1, ht⟩ := compareOuter_split b a.view [] (a.arr.drop a.len)
    have hlen : a.view.length = a.len := by
      simp only [Slice.view, List.length_take]; exact Nat.min_eq_left h
    have harr : a.view ++ ([] ++ a.arr.drop a.len) = a.arr := by
      simp [Slice.view]
    have ha : (⟨a.view ++ ([] ++ a.arr.drop a.len),
        a.view.length + ([] : List String).length⟩ : Slice) = a := by
      rw [harr, hlen]; rfl
    rw [ha, hlen] at ht
    refine ⟨_, ht, ?_⟩
    simp [Slice.view]
  refine ⟨key a b h, ?_⟩
  intro needlist hn
  obtain ⟨r, hr, hv⟩ := key a needlist.view h
  obtain ⟨r2, hr2, _⟩ := key needlist (Slice.view ⟨r.arr, a.len⟩) hn
  exact ⟨r2.view, by simp [diffLists, hr, hr2, hv]⟩

/-- C2, at a slice with a repeated element: `X` occurs twice in `a` and not in
`b`, and is returned twice. -/
theorem compare_returns_absent_witness :
    (Slice.ofList ["X", "Y", "X"]).WF ∧
    compare (Slice.ofList ["X", "Y", "X"]) ["Y"] = some ⟨["X", "X", "X"], 2⟩ ∧
    ((∃ r, compare (Slice.ofList ["X", "Y", "X"]) ["Y"] = some r ∧
        r.view = (Slice.ofList ["X", "Y", "X"]).view.filter (fun x => decide (x ∉ ["Y"]))) ∧
      (∀ needlist : Slice, needlist.WF →
        ∃ needadd, diffLists (Slice.ofList ["X", "Y", "X"]) needlist
          = some ((Slice.ofList ["X", "Y", "X"]).view.filter
              (fun x => decide (x ∉ needlist.view)), needadd))) :=
  ⟨by decide, by decide,
    compare_returns_absent (Slice.ofList ["X", "Y", "X"]) ["Y"] (by decide)⟩

/-- C1, at `curentlist = [10.0.0.0/8, 12.0.0.0/8]`, `needlist = [10.0.0.0/8]`:
the first `compare` shifts `12.0.0.0/8` over `10.0.0.0/8` in the array of
`curentlist`, the second `compare` then reads `[12.0.0.0/8, 12.0.0.0/8]` and
puts `10.0.0.0/8`, an element of `curentlist`, into `needadd`. -/
theorem diffLists_needadd_not_absent :
    compare (Slice.ofList ["10.0.0.0/8", "12.0.0.0/8"]) ["10.0.0.0/8"]
      = some ⟨["12.0.0.0/8", "12.0.0.0/8"], 1⟩ ∧
    diffLists (Slice.ofList ["10.0.0.0/8", "12.0.0.0/8"]) (Slice.ofList ["10.0.0.0/8"])
      = some (["12.0.0.0/8"], ["10.0.0.0/8"]) ∧
    "10.0.0.0/8" ∈ ["10.0.0.0/8", "12.0.0.0/8"] ∧
    ["10.0.0.0/8"].filter (fun x => decide (x ∉ ["10.0.0.0/8", "12.0.0.0/8"])) = [] := by
  decide

/-! ## Cache freshness -/

/-- A difference that fits an `int64` is not changed by the wrap-around. -/
theorem wrapInt64_of_range (x : Int) (h0 : 0 ≤ x) (h1 : x < 2 ^ 63) : wrapInt64 x = x := by
  unfold wrapInt64
  have : (x + 2 ^ 63) % 2 ^ 64 = x + 2 ^ 63 := Int.emod_eq_of_lt (by omega) (by omega)
  omega

/-- C4. `CacheLive` returns false when the cache file does not exist; when it
exists with modification time `secF` and the age `age = secNow - secF` is a
non-negative number of seconds (that fits an `int64`), then for every
non-negative `Cachettl` it returns false exactly when `age > Cachettl`, and
true when `age <= Cachettl`. -/
theorem CacheLive_boundary (options : Opts) (stat : String → StatResult) (secNow : Int)
    (asn : String) :
    (stat (options.Cachepath ++ "/" ++ asn ++ ".asn") = .notExist →
      CacheLive options stat secNow asn = false) ∧
    (∀ secF age : Int, stat (options.Cachepath ++ "/" ++ asn ++ ".asn") = .info secF →
      age = secNow - secF → 0 ≤ age → age < 2 ^ 63 → 0 ≤ options.Cachettl →
      (CacheLive options stat secNow asn = false ↔ age > options.Cachettl) ∧
      (age ≤ options.Cachettl → CacheLive options stat secNow asn = true)) := by
  constructor
  · intro h
    simp [CacheLive, fileExists, h]
  · intro secF age h hage h0 h1 _
    have hw : wrapInt64 (secNow - secF) = age := by
      rw [← hage]; exact wrapInt64_of_range age h0 h1
    simp only [CacheLive, fileExists, h, hw]
    constructor
    · constructor
      · intro hc
        by_contra hle
        simp [hle] at hc
      · intro hgt
        simp [hgt]
    · intro hle
      have : ¬ age > options.Cachettl := by omega
      simp [this]

/-- C4, Scenario C: a cache file modified 90000 seconds ago with
`Cachettl = 86400` is not live; modified exactly 86400 seconds ago it is. -/
theorem CacheLive_boundary_witness :
    CacheLive sampleOpts (fun _ => .info 1700000000) 1700090000 "64501" = false ∧
    CacheLive sampleOpts (fun _ => .info 1700000000) 1700086400 "64501" = true :=
  ⟨((CacheLive_boundary sampleOpts (fun _ => .info 1700000000) 1700090000 "64501").2
      1700000000 90000 rfl (by decide) (by decide) (by decide) (by decide)).1.2 (by decide),
   ((CacheLive_boundary sampleOpts (fun _ => .info 1700000000) 1700086400 "64501").2
      1700000000 86400 rfl (by decide) (by decide) (by decide) (by decide)).2 (by decide)⟩

/-! ## Writing the cache and reading it back -/

/-- Characters that are not a newline are collected into the current line. -/
theorem scanTokens_append (l : List Char) (hl : ∀ c ∈ l, c ≠ '\n') :
    ∀ (rest tok : List Char), scanTokens (l ++ rest) tok = scanTokens rest (tok ++ l) := by
  induction l with
  | nil => intro rest tok; simp
  | cons c l ih =>
    intro rest tok
    have hc : c ≠ '\n' := hl c (by simp)
    have hl2 : ∀ x ∈ l, x ≠ '\n' := fun x hx => hl x (by simp [hx])
    simp only [List.cons_append, scanTokens, hc, if_false]
    show scanTokens (l ++ rest) (tok ++ [c]) = _
    rw [ih hl2]
    simp

/-- The digits of a decimal numeral are neither newline nor carriage return. -/
theorem digitChar_no_break (d : Nat) (h : d < 10) :
    Nat.digitChar d ≠ '\n' ∧ Nat.digitChar d ≠ '\r' := by
  interval_cases d <;> decide

/-- A property of all digits holds for every character `Nat.toDigitsCore`
produces. -/
theorem toDigitsCore_forall (P : Char → Prop) (hP : ∀ d, d < 10 → P (Nat.digitChar d)) :
    ∀ fuel n ds, (∀ c ∈ ds, P c) → ∀ c ∈ Nat.toDigitsCore 10 fuel n ds, P c := by
  intro fuel
  induction fuel with
  | zero =>
    intro n ds h c hc
    exact h c (by simpa [Nat.toDigitsCore] using hc)
  | succ f ih =>
    intro n ds h c hc
    have hd : P (Nat.digitChar (n % 10)) := hP _ (Nat.mod_lt _ (by decide))
    have hds : ∀ x ∈ Nat.digitChar (n % 10) :: ds, P x := by
      intro x hx
      rcases List.mem_cons.1 hx with rfl | hx
      · exact hd
      · exact h x hx
    simp only [Nat.toDigitsCore] at hc
    split_ifs at hc with h0
    · exact hds c hc
    · exact ih _ _ hds c hc

/-- `Itoa` writes neither a newline nor a carriage return. -/
theorem Itoa_no_break (i : Int) : ∀ c ∈ (Itoa i).data, c ≠ '\n' ∧ c ≠ '\r' := by
  intro c hc
  have hnat : ∀ n : Nat, ∀ x ∈ (Nat.repr n).data, x ≠ '\n' ∧ x ≠ '\r' := by
    intro n x hx
    simp only [Nat.repr, List.asString, Nat.toDigits] at hx
    exact toDigitsCore_forall (fun x => x ≠ '\n' ∧ x ≠ '\r') digitChar_no_break _ _ _
      (by simp) x hx
  cases i with
  | ofNat n =>
    have e : Itoa (Int.ofNat n) = Nat.repr n := rfl
    rw [e] at hc
    exact hnat n c hc
  | negSucc n =>
    have e : Itoa (Int.negSucc n) = "-" ++ Nat.repr (n + 1) := rfl
    rw [e] at hc
    simp only [String.data_append] at hc
    rcases List.mem_append.1 hc with h | h
    · have hm : c = '-' := by simpa using h
      rw [hm]; decide
    · exact hnat _ c h

/-- A written line never ends in a carriage return: it ends in the digits of
the prefix length. -/
theorem dropCR_cacheLine (s : Prefix_IPv4) : dropCR (cacheLine s).data = (cacheLine s).data := by
  have hd : (cacheLine s).data = s.Ip.data ++ ('/' :: (Itoa s.Cidr).data) := by
    simp [cacheLine, String.data_append]
  have hne : ('/' :: (Itoa s.Cidr).data) ≠ [] := by simp
  have hlast : (s.Ip.data ++ ('/' :: (Itoa s.Cidr).data)).getLast? ≠ some '\r' := by
    intro h
    rw [List.getLast?_append_of_ne_nil _ hne] at h
    have hm := List.mem_of_getLast?_eq_some h
    rcases List.mem_cons.1 hm with h1 | h1
    · exact absurd h1 (by decide)
    · exact (Itoa_no_break _ _ h1).2 rfl
  rw [hd]
  unfold dropCR
  rw [if_neg hlast]

/-- The text written for a list of prefixes, as characters. -/
theorem cacheText_cons_data (s : Prefix_IPv4) (rest : List Prefix_IPv4) :
    (cacheText (s :: rest)).data = (cacheLine s).data ++ ('\n' :: (cacheText rest).data) := by
  simp [cacheText, String.data_append]

/-- A written line contains no newline when its address contains none. -/
theorem cacheLine_no_newline (s : Prefix_IPv4) (h : ∀ c ∈ s.Ip.data, c ≠ '\n') :
    ∀ c ∈ (cacheLine s).data, c ≠ '\n' := by
  intro c hc
  have hd : (cacheLine s).data = s.Ip.data ++ ('/' :: (Itoa s.Cidr).data) := by
    simp [cacheLine, String.data_append]
  rw [hd] at hc
  rcases List.mem_append.1 hc with h1 | h1
  · exact h c h1
  · rcases List.mem_cons.1 h1 with h2 | h2
    · rw [h2]; decide
    · exact (Itoa_no_break _ _ h2).1

/-- Reading back the text written for a list of prefixes whose lines fit the
scanner's buffer. -/
theorem scanLines_cacheText (prefixes : List Prefix_IPv4)
    (hnl : ∀ s ∈ prefixes, ∀ c ∈ s.Ip.data, c ≠ '\n')
    (hlen : ∀ s ∈ prefixes, byteLen (cacheLine s).data < MaxScanTokenSize) :
    scanLines (cacheText prefixes) = prefixes.map cacheLine := by
  induction prefixes with
  | nil => simp [scanLines, cacheText, scanTokens]
  | cons s rest ih =>
    have h1 := cacheLine_no_newline s (hnl s (by simp))
    have h2 := hlen s (by simp)
    have ih2 := ih (fun x hx => hnl x (by simp [hx])) (fun x hx => hlen x (by simp [hx]))
    unfold scanLines at ih2 ⊢
    rw [cacheText_cons_data, scanTokens_append _ h1]
    simp only [List.nil_append, scanTokens, if_true, h2, dropCR_cacheLine, ih2, List.map_cons]

/-- C10, as amended. When `UpdateCache` returns, the text it has written for
the prefixes of the lookup service, read back by the scanner of `ROSUpdate`,
is exactly the sequence of the lines `ip/cidr` (same length, order and
duplicates), provided no `ip` contains a newline and every line is shorter
than `MaxScanTokenSize` bytes. -/
theorem cache_roundtrip (options : Opts) (stat : String → StatResult) (env : FetchEnv)
    (asn : String) (prefixes : List Prefix_IPv4) (value : Bool) (written : String)
    (hp : env.parsed = some prefixes)
    (hu : UpdateCache options stat env asn = .returned value written)
    (hnl : ∀ s ∈ prefixes, ∀ c ∈ s.Ip.data, c ≠ '\n')
    (hlen : ∀ s ∈ prefixes, byteLen (cacheLine s).data < MaxScanTokenSize) :
    scanLines written = prefixes.map (fun s => s.Ip ++ "/" ++ Itoa s.Cidr) := by
  have hw : written = cacheText prefixes := by
    unfold UpdateCache at hu
    rw [hp] at hu
    simp only [] at hu
    split_ifs at hu
    cases hu
    rfl
  rw [hw]
  exact scanLines_cacheText prefixes hnl hlen

/-- The byte length of a repeated one-byte character. -/
theorem byteLen_replicate_one (n : Nat) : byteLen (List.replicate n '1') = n := by
  induction n with
  | zero => rfl
  | succ n ih =>
    have h1 : Char.utf8Size '1' = 1 := by decide
    simp only [byteLen, List.replicate_succ, List.map_cons, List.sum_cons, h1] at ih ⊢
    omega

/-- A line of `n` one-byte characters followed by `/8` is not delivered by
the scanner when it does not fit the buffer. -/
theorem scanLines_long_line (n : Nat) (hn : MaxScanTokenSize ≤ n + 2) :
    scanLines (cacheText [⟨String.mk (List.replicate n '1'), 8⟩]) = [] := by
  have hi : (Itoa 8).data = ['8'] := by decide
  have hd : (cacheLine ⟨String.mk (List.replicate n '1'), 8⟩).data
      = List.replicate n '1' ++ ['/', '8'] := by
    simp [cacheLine, String.data_append, hi]
  have h1 : ∀ c ∈ (cacheLine ⟨String.mk (List.replicate n '1'), 8⟩).data, c ≠ '\n' :=
    cacheLine_no_newline _ (fun c hc => by rw [List.eq_of_mem_replicate hc]; decide)
  have hlen : byteLen (cacheLine ⟨String.mk (List.replicate n '1'), 8⟩).data = n + 2 := by
    have hb := byteLen_replicate_one n
    have h2 : Char.utf8Size '/' = 1 := by decide
    have h3 : Char.utf8Size '8' = 1 := by decide
    rw [hd]
    simp only [byteLen, List.map_append, List.sum_append, List.map_cons, List.map_nil,
      List.sum_cons, List.sum_nil, h2, h3] at hb ⊢
    omega
  have hnot : ¬ (n + 2 < MaxScanTokenSize) := by omega
  unfold scanLines
  rw [cacheText_cons_data, scanTokens_append _ h1]
  simp only [List.nil_append, scanTokens, if_true, hlen, hnot, if_false]

/-- C10, as stated, fails: an `ip` of 65536 bytes without line break is
written by `UpdateCache` as one line, and the scanner of `ROSUpdate` reads
back no line at all instead of that line. -/
theorem cache_roundtrip_long_line :
    (∀ c ∈ longIp.data, c ≠ '\n' ∧ c ≠ '\r') ∧
    UpdateCache sampleOpts (fun _ => .notExist) (fetchOk [⟨longIp, 8⟩]) "64500"
      = .returned true (cacheText [⟨longIp, 8⟩]) ∧
    scanLines (cacheText [⟨longIp, 8⟩]) = [] ∧
    scanLines (cacheText [⟨longIp, 8⟩]) ≠ [longIp ++ "/" ++ Itoa 8] := by
  have hscan : scanLines (cacheText [⟨longIp, 8⟩]) = [] :=
    scanLines_long_line 65536 (by decide)
  refine ⟨?_, ?_, hscan, ?_⟩
  · intro c hc
    have hc2 : c ∈ List.replicate 65536 '1' := hc
    rw [List.eq_of_mem_replicate hc2]; decide
  · simp [UpdateCache, fileExists, fetchOk]
  · rw [hscan]; simp

/-- C10, the spec's round trip: the prefixes `1.2.3.0/24` and `5.6.7.0/16`
are read back as the identical ordered sequence. -/
theorem cache_roundtrip_witness :
    scanLines (cacheText [⟨"1.2.3.0", 24⟩, ⟨"5.6.7.0", 16⟩]) = ["1.2.3.0/24", "5.6.7.0/16"] :=
  cache_roundtrip sampleOpts (fun _ => .notExist)
    (fetchOk [⟨"1.2.3.0", 24⟩, ⟨"5.6.7.0", 16⟩])
    "64500" [⟨"1.2.3.0", 24⟩, ⟨"5.6.7.0", 16⟩] true
    (cacheText [⟨"1.2.3.0", 24⟩, ⟨"5.6.7.0", 16⟩]) rfl (by decide) (by decide) (by decide)

/-! ## The order of the device commands -/

/-- A successful sentence in front of a trace keeps its shape. -/
theorem FailsLast_cons (y : Cmd) (tr : List Sent) (x : Option Exit) (h : FailsLast tr x) :
    FailsLast ((y, none) :: tr) x := by
  rcases h with h | ⟨pre, cmd, e, h1, h2, h3⟩
  · left
    intro z hz
    rcases List.mem_cons.1 hz with rfl | hz
    · rfl
    · exact h z hz
  · right
    refine ⟨(y, none) :: pre, cmd, e, by simp [h1], ?_, h3⟩
    intro z hz
    rcases List.mem_cons.1 hz with rfl | hz
    · rfl
    · exact h2 z hz

/-- A trace without failure in front of a trace keeps its shape. -/
theorem FailsLast_append (tr tr2 : List Sent) (x : Option Exit) (h1 : okAll tr)
    (h : FailsLast tr2 x) : FailsLast (tr ++ tr2) x := by
  induction tr with
  | nil => simpa using h
  | cons y tr ih =>
    have hy : y.2 = none := h1 y (by simp)
    have ht : okAll tr := fun z hz => h1 z (by simp [hz])
    obtain ⟨c1, e1⟩ := y
    simp only at hy
    subst hy
    exact FailsLast_cons c1 _ x (ih ht)

/-- The loop over `needremove` sends no `add`, stops at its first failing
sentence, and has seen no failure when it runs to its end. -/
theorem removeLoop_shape {σ : Type} (c : Client σ) (options : Opts) (namelist : String) :
    ∀ (l : List String) (s : σ),
      FailsLast (removeLoop c options namelist l s).2.2 (removeLoop c options namelist l s).1 ∧
      ((removeLoop c options namelist l s).1 = none →
        okAll (removeLoop c options namelist l s).2.2) ∧
      (∀ y ∈ (removeLoop c options namelist l s).2.2, y.1.isAdd = false) := by
  intro l
  induction l with
  | nil => intro s; simp [removeLoop, FailsLast, okAll]
  | cons a rest ih =>
    intro s
    simp only [removeLoop]
    rcases h1 : c.Run s (Cmd.print [(Attr.list, options.List), (Attr.comment, namelist),
      (Attr.address, a)] Attr.id) with ⟨_ | r, s1⟩
    · rename_i e
      refine ⟨Or.inr ⟨[], Cmd.print [(Attr.list, options.List), (Attr.comment, namelist),
        (Attr.address, a)] Attr.id, e, by simp, by simp [okAll], rfl⟩, by simp, ?_⟩
      simp [Cmd.isAdd]
    · obtain ⟨res⟩ := r
      rcases res with _ | ⟨re, more⟩
      · simp [FailsLast, okAll, Cmd.isAdd]
      · rcases re with _ | ⟨p, ps⟩
        · simp [FailsLast, okAll, Cmd.isAdd]
        · simp only []
          rcases h2 : c.Run s1 (Cmd.remove p.Value) with ⟨_ | r2, s2⟩
          · rename_i e
            refine ⟨Or.inr ⟨[(Cmd.print [(Attr.list, options.List), (Attr.comment, namelist),
              (Attr.address, a)] Attr.id, none)], Cmd.remove p.Value, e, by simp,
              by simp [okAll], rfl⟩, by simp, ?_⟩
            simp [Cmd.isAdd]
          · obtain ⟨i1, i2, i3⟩ := ih s2
            refine ⟨FailsLast_cons _ _ _ (FailsLast_cons _ _ _ i1), ?_, ?_⟩
            · intro hn y hy
              simp only [List.mem_cons] at hy
              rcases hy with rfl | rfl | hy
              · rfl
              · rfl
              · exact i2 hn y hy
            · intro y hy
              simp only [List.mem_cons] at hy
              rcases hy with rfl | rfl | hy
              · rfl
              · rfl
              · exact i3 y hy

/-- The loop over `needadd` sends only `add` sentences and stops at its first
failing sentence. -/
theorem addLoop_shape {σ : Type} (c : Client σ) (options : Opts) (namelist : String) :
    ∀ (l : List String) (s : σ),
      FailsLast (addLoop c options namelist l s).2.2 (addLoop c options namelist l s).1 ∧
      ((addLoop c options namelist l s).1 = none →
        okAll (addLoop c options namelist l s).2.2) ∧
      (∀ y ∈ (addLoop c options namelist l s).2.2, y.1.isAdd = true) := by
  intro l
  induction l with
  | nil => intro s; simp [addLoop, FailsLast, okAll]
  | cons a rest ih =>
    intro s
    simp only [addLoop]
    rcases h1 : c.Run s (Cmd.add options.List a namelist) with ⟨_ | r, s1⟩
    · rename_i e
      refine ⟨Or.inr ⟨[], Cmd.add options.List a namelist, e, by simp, by simp [okAll], rfl⟩,
        by simp, ?_⟩
      simp [Cmd.isAdd]
    · obtain ⟨i1, i2, i3⟩ := ih s1
      refine ⟨FailsLast_cons _ _ _ i1, ?_, ?_⟩
      · intro hn y hy
        simp only [List.mem_cons] at hy
        rcases hy with rfl | hy
        · rfl
        · exact i2 hn y hy
      · intro y hy
        simp only [List.mem_cons] at hy
        rcases hy with rfl | hy
        · rfl
        · exact i3 y hy

/-- In a trace of that shape, nothing follows a failed sentence, and its
error is the one returned. -/
theorem FailsLast_split (tr : List Sent) (x : Option Exit) (h : FailsLast tr x)
    (pre post : List Sent) (cmd : Cmd) (e : String)
    (ht : tr = pre ++ (cmd, some e) :: post) :
    post = [] ∧ x = some (.returned (some e)) := by
  rcases h with h | ⟨pre1, cmd1, e1, h1, h2, h3⟩
  · have := h (cmd, some e) (by rw [ht]; simp)
    simp at this
  · rw [h1] at ht
    rcases List.append_eq_append_iff.1 ht with ⟨a1, ha, hb⟩ | ⟨c1, ha, hb⟩
    · rcases a1 with _ | ⟨z, a2⟩
      · simp at hb
        obtain ⟨⟨_, he⟩, hp⟩ := hb
        exact ⟨hp, by rw [h3, he]⟩
      · simp at hb
    · rcases c1 with _ | ⟨z, c2⟩
      · simp at hb
        obtain ⟨⟨_, he⟩, hp⟩ := hb
        exact ⟨hp, by rw [h3, he]⟩
      · simp at hb
        obtain ⟨hz, hb⟩ := hb
        have hm : (cmd, some e) ∈ pre1 := by rw [ha, ← hz]; simp
        have := h2 _ hm
        simp at this

/-- The trace of `ROSUpdate`: sentences that are not `add`, then `add`
sentences, with at most the last sentence of all failed. -/
theorem ROSUpdate_shape {σ : Type} (c : Client σ) (options : Opts) (dialErr : Option String)
    (file : Except String String) (s : σ) (as : String) :
    FailsLast (ROSUpdate c options dialErr file s as).trace
      (some (ROSUpdate c options dialErr file s as).exit) ∧
    ∃ A B, (ROSUpdate c options dialErr file s as).trace = A ++ B ∧
      (∀ y ∈ A, y.1.isAdd = false) ∧ (∀ y ∈ B, y.1.isAdd = true) ∧ (B ≠ [] → okAll A) := by
  unfold ROSUpdate
  rcases dialErr with _ | e
  · simp only []
    rcases h1 : c.Run s (Cmd.print [(Attr.list, options.List), (Attr.comment, "ASN" ++ as)]
      Attr.address) with ⟨_ | reply, s1⟩
    · rename_i e
      refine ⟨Or.inr ⟨[], Cmd.print [(Attr.list, options.List), (Attr.comment, "ASN" ++ as)]
        Attr.address, e, by simp, by simp [okAll], rfl⟩, ⟨_, [], (List.append_nil _).symm, ?_⟩⟩
      simp [Cmd.isAdd]
    · simp only []
      rcases readAddresses reply.Re with _ | addresses
      · refine ⟨Or.inl (by simp [okAll]), ⟨_, [], (List.append_nil _).symm, ?_⟩⟩
        simp [Cmd.isAdd]
      · simp only []
        rcases file with e | content
        · refine ⟨Or.inl (by simp [okAll]), ⟨_, [], (List.append_nil _).symm, ?_⟩⟩
          simp [Cmd.isAdd]
        · simp only []
          rcases diffLists (Slice.ofList addresses) (Slice.ofList (scanLines content))
            with _ | ⟨needremove, needadd⟩
          · refine ⟨Or.inl (by simp [okAll]), ⟨_, [], (List.append_nil _).symm, ?_⟩⟩
            simp [Cmd.isAdd]
          · simp only []
            obtain ⟨r1, r2, r3⟩ := removeLoop_shape c options ("ASN" ++ as) needremove s1
            rcases hrem : removeLoop c options ("ASN" ++ as) needremove s1 with ⟨x, s2, tr⟩
            rw [hrem] at r1 r2 r3
            simp only at r1 r2 r3
            rcases x with _ | x
            · simp only []
              have hok : okAll tr := r2 rfl
              obtain ⟨a1, a2, a3⟩ := addLoop_shape c options ("ASN" ++ as) needadd s2
              rcases hadd : addLoop c options ("ASN" ++ as) needadd s2 with ⟨x2, s3, tr2⟩
              rw [hadd] at a1 a2 a3
              simp only at a1 a2 a3
              have hA : ∀ y ∈ ((Cmd.print [(Attr.list, options.List),
                  (Attr.comment, "ASN" ++ as)] Attr.address, (none : Option String)) :: tr),
                  y.1.isAdd = false := by
                intro y hy
                rcases List.mem_cons.1 hy with rfl | hy
                · rfl
                · exact r3 y hy
              have hokA : okAll ((Cmd.print [(Attr.list, options.List),
                  (Attr.comment, "ASN" ++ as)] Attr.address, (none : Option String)) :: tr) := by
                intro y hy
                rcases List.mem_cons.1 hy with rfl | hy
                · rfl
                · exact hok y hy
              rcases x2 with _ | x2
              · simp only []
                have hok2 : okAll tr2 := a2 rfl
                refine ⟨Or.inl ?_, ⟨_, tr2, (List.cons_append _ _ _).symm, hA, a3, fun _ => hokA⟩⟩
                intro y hy
                rw [← List.cons_append] at hy
                rcases List.mem_append.1 hy with hy | hy
                · exact hokA y hy
                · exact hok2 y hy
              · simp only []
                exact ⟨FailsLast_cons _ _ _ (FailsLast_append _ _ _ hok a1),
                  ⟨_, tr2, (List.cons_append _ _ _).symm, hA, a3, fun _ => hokA⟩⟩
            · simp only []
              refine ⟨FailsLast_cons _ _ _ r1, ⟨_, [], (List.append_nil _).symm, ?_, ?_, ?_⟩⟩
              · intro y hy
                rcases List.mem_cons.1 hy with rfl | hy
                · rfl
                · exact r3 y hy
              · simp
              · simp
  · exact ⟨Or.inl (by simp [okAll]), ⟨[], [], rfl, by simp, by simp, by simp⟩⟩

/-- C9. In the sentences `ROSUpdate` sends, for every client: (1) nothing is
sent after a sentence that failed, and `ROSUpdate` returns the error of that
sentence; (2) after an `add` only `add` sentences are sent, so every query
and every `remove` precedes every `add`; (3) when a sentence that is not an
`add` (the first query, an id query or a `remove`) fails, no `add` is sent at
all.  No sentence is sent to undo an earlier one. -/
theorem ROSUpdate_stops_at_first_failure {σ : Type} (c : Client σ) (options : Opts)
    (dialErr : Option String) (file : Except String String) (s : σ) (as : String) :
    (∀ (pre post : List Sent) (cmd : Cmd) (e : String),
      (ROSUpdate c options dialErr file s as).trace = pre ++ (cmd, some e) :: post →
      post = [] ∧ (ROSUpdate c options dialErr file s as).exit = .returned (some e)) ∧
    (∀ (pre post : List Sent) (list address comment : String) (e : Option String),
      (ROSUpdate c options dialErr file s as).trace
        = pre ++ (Cmd.add list address comment, e) :: post →
      ∀ y ∈ post, y.1.isAdd = true) ∧
    (∀ (cmd : Cmd) (e : String),
      (cmd, some e) ∈ (ROSUpdate c options dialErr file s as).trace → cmd.isAdd = false →
      ∀ y ∈ (ROSUpdate c options dialErr file s as).trace, y.1.isAdd = false) := by
  obtain ⟨hf, A, B, hAB, hA, hB, hok⟩ := ROSUpdate_shape c options dialErr file s as
  refine ⟨?_, ?_, ?_⟩
  · intro pre post cmd e ht
    obtain ⟨h1, h2⟩ := FailsLast_split _ _ hf pre post cmd e ht
    exact ⟨h1, by simpa using h2⟩
  · intro pre post list address comment e ht y hy
    rw [hAB] at ht
    rcases List.append_eq_append_iff.1 ht with ⟨a1, ha, hb⟩ | ⟨c1, ha, hb⟩
    · exact hB y (by rw [hb]; simp [hy])
    · rcases c1 with _ | ⟨z, c2⟩
      · simp at hb
        exact hB y (by rw [← hb]; simp [hy])
      · simp at hb
        obtain ⟨hz, hb⟩ := hb
        have hm : (Cmd.add list address comment, e) ∈ A := by rw [ha, ← hz]; simp
        have := hA _ hm
        simp [Cmd.isAdd] at this
  · intro cmd e hm hcmd y hy
    rw [hAB] at hm hy
    have hinA : (cmd, some e) ∈ A := by
      rcases List.mem_append.1 hm with h | h
      · exact h
      · have := hB _ h
        simp [hcmd] at this
    have hBnil : B = [] := by
      by_contra hne
      have := hok hne _ hinA
      simp at this
    rw [hBnil] at hy
    exact hA y (by simpa using hy)

/-! ## Ownership of device entries -/

/-- Every sentence of the loop over `needremove` is scoped. -/
theorem removeLoop_scoped {σ : Type} (c : Client σ) (options : Opts) (namelist : String) :
    ∀ (l : List String) (s : σ),
      ∀ y ∈ (removeLoop c options namelist l s).2.2, y.1.scoped options.List namelist = true := by
  intro l
  induction l with
  | nil => intro s; simp [removeLoop]
  | cons a rest ih =>
    intro s
    simp only [removeLoop]
    rcases h1 : c.Run s (Cmd.print [(Attr.list, options.List), (Attr.comment, namelist),
      (Attr.address, a)] Attr.id) with ⟨_ | r, s1⟩
    · simp [Cmd.scoped]
    · obtain ⟨res⟩ := r
      rcases res with _ | ⟨re, more⟩
      · simp [Cmd.scoped]
      · rcases re with _ | ⟨p, ps⟩
        · simp [Cmd.scoped]
        · simp only []
          rcases h2 : c.Run s1 (Cmd.remove p.Value) with ⟨_ | r2, s2⟩
          · simp [Cmd.scoped]
          · intro y hy
            simp only [List.mem_cons] at hy
            rcases hy with rfl | rfl | hy
            · simp [Cmd.scoped]
            · simp [Cmd.scoped]
            · exact ih s2 y hy

/-- Every sentence of the loop over `needadd` is scoped. -/
theorem addLoop_scoped {σ : Type} (c : Client σ) (options : Opts) (namelist : String) :
    ∀ (l : List String) (s : σ),
      ∀ y ∈ (addLoop c options namelist l s).2.2, y.1.scoped options.List namelist = true := by
  intro l
  induction l with
  | nil => intro s; simp [addLoop]
  | cons a rest ih =>
    intro s
    simp only [addLoop]
    rcases h1 : c.Run s (Cmd.add options.List a namelist) with ⟨_ | r, s1⟩
    · simp [Cmd.scoped]
    · intro y hy
      simp only [List.mem_cons] at hy
      rcases hy with rfl | hy
      · simp [Cmd.scoped]
      · exact ih s1 y hy

/-- Every sentence `ROSUpdate` sends is scoped by the list name and the tag
of its ASN. -/
theorem ROSUpdate_scoped {σ : Type} (c : Client σ) (options : Opts) (dialErr : Option String)
    (file : Except String String) (s : σ) (as : String) :
    ∀ y ∈ (ROSUpdate c options dialErr file s as).trace,
      y.1.scoped options.List ("ASN" ++ as) = true := by
  unfold ROSUpdate
  rcases dialErr with _ | e
  · simp only []
    rcases h1 : c.Run s (Cmd.print [(Attr.list, options.List), (Attr.comment, "ASN" ++ as)]
      Attr.address) with ⟨_ | reply, s1⟩
    · simp [Cmd.scoped]
    · simp only []
      rcases readAddresses reply.Re with _ | addresses
      · simp [Cmd.scoped]
      · simp only []
        rcases file with e | content
        · simp [Cmd.scoped]
        · simp only []
          rcases diffLists (Slice.ofList addresses) (Slice.ofList (scanLines content))
            with _ | ⟨needremove, needadd⟩
          · simp [Cmd.scoped]
          · simp only []
            have r3 := removeLoop_scoped c options ("ASN" ++ as) needremove s1
            rcases hrem : removeLoop c options ("ASN" ++ as) needremove s1 with ⟨x, s2, tr⟩
            rw [hrem] at r3
            simp only at r3
            rcases x with _ | x
            · simp only []
              have a3 := addLoop_scoped c options ("ASN" ++ as) needadd s2
              rcases hadd : addLoop c options ("ASN" ++ as) needadd s2 with ⟨x2, s3, tr2⟩
              rw [hadd] at a3
              simp only at a3
              have hall : ∀ y ∈ ((Cmd.print [(Attr.list, options.List),
                  (Attr.comment, "ASN" ++ as)] Attr.address, (none : Option String))
                  :: (tr ++ tr2)), y.1.scoped options.List ("ASN" ++ as) = true := by
                intro y hy
                rcases List.mem_cons.1 hy with rfl | hy
                · simp [Cmd.scoped]
                · rcases List.mem_append.1 hy with hy | hy
                  · exact r3 y hy
                  · exact a3 y hy
              rcases x2 with _ | x2
              · exact hall
              · exact hall
            · simp only []
              intro y hy
              rcases List.mem_cons.1 hy with rfl | hy
              · simp [Cmd.scoped]
              · exact r3 y hy
  · simp

/-- Entries returned for a query with list and comment words are owned. -/
theorem matching_owned (d : Device) (query : List (Attr × String)) (list tag : String)
    (h1 : (Attr.list, list) ∈ query) (h2 : (Attr.comment, tag) ∈ query) :
    ∀ x ∈ d.matching query, x ∈ d.entries ∧ x.owned list tag = true := by
  intro x hx
  simp only [Device.matching, List.mem_filter, Entry.matchesQuery, List.all_eq_true] at hx
  obtain ⟨hm, hall⟩ := hx
  have e1 := hall _ h1
  have e2 := hall _ h2
  simp only [Entry.attr, decide_eq_true_eq] at e1 e2
  exact ⟨hm, by simp [Entry.owned, e1, e2]⟩

/-- A failing sentence, and every `print`, leave the entries as they are;
the reply of a `print` lists the matching entries. -/
theorem Run_print (d : Device) (query : List (Attr × String)) (p : Attr) :
    (Device.Run d (.print query p)).2.entries = d.entries ∧
    ∀ r, (Device.Run d (.print query p)).1 = .ok r →
      r.Re = (d.matching query).map (fun e => [⟨p.name, e.attr p⟩]) := by
  unfold Device.Run
  rcases hf : d.faults with _ | ⟨f, rest⟩
  · simp [Device.exec]
  · rcases f with _ | e
    · simp [Device.exec, Device.matching]
    · simp

/-- A `remove` deletes the entries with the given id, or nothing. -/
theorem Run_remove (d : Device) (id : String) :
    (Device.Run d (.remove id)).2.entries = d.entries ∨
    (Device.Run d (.remove id)).2.entries = d.entries.filter (fun e => decide (e.id ≠ id)) := by
  unfold Device.Run
  rcases hf : d.faults with _ | ⟨f, rest⟩
  · simp only [Device.exec]
    split_ifs
    · right; rfl
    · left; rfl
  · rcases f with _ | e
    · simp only [Device.exec]
      split_ifs
      · right; rfl
      · left; rfl
    · left; rfl

/-- An `add` appends one entry with the given list and comment, or nothing. -/
theorem Run_add (d : Device) (list address comment : String) :
    (Device.Run d (.add list address comment)).2.entries = d.entries ∨
    ∃ id, (Device.Run d (.add list address comment)).2.entries
      = d.entries ++ [⟨id, address, list, comment⟩] := by
  unfold Device.Run
  rcases hf : d.faults with _ | ⟨f, rest⟩
  · right; exact ⟨_, rfl⟩
  · rcases f with _ | e
    · right; exact ⟨_, rfl⟩
    · left; rfl

/-- Deleting by the id of an owned entry leaves the foreign entries alone
when ids are unique. -/
theorem filter_id_foreign (es : List Entry) (list tag : String) (e : Entry)
    (hid : (es.map Entry.id).Nodup) (he : e ∈ es) (ho : e.owned list tag = true) :
    (es.filter (fun x => decide (x.id ≠ e.id))).filter (fun x => !x.owned list tag)
      = es.filter (fun x => !x.owned list tag) := by
  rw [List.filter_filter]
  apply List.filter_congr
  intro x hx
  by_cases hxo : x.owned list tag = true
  · simp [hxo]
  · have hne : x.id ≠ e.id := by
      intro heq
      have := List.inj_on_of_nodup_map hid hx he heq
      rw [this] at hxo
      exact hxo ho
    simp [hxo, hne]

/-- The loop over `needremove`, run against the device, keeps the foreign
entries and the uniqueness of ids. -/
theorem removeLoop_frame (options : Opts) (namelist : String) :
    ∀ (l : List String) (d : Device), (d.entries.map Entry.id).Nodup →
      ((removeLoop deviceClient options namelist l d).2.1.entries.map Entry.id).Nodup ∧
      (removeLoop deviceClient options namelist l d).2.1.foreign options.List namelist
        = d.foreign options.List namelist := by
  intro l
  induction l with
  | nil => intro d hid; exact ⟨hid, rfl⟩
  | cons a rest ih =>
    intro d hid
    simp only [removeLoop]
    obtain ⟨p1, p2⟩ := Run_print d [(Attr.list, options.List), (Attr.comment, namelist),
      (Attr.address, a)] Attr.id
    have hrun : deviceClient.Run = Device.Run := rfl
    rw [hrun]
    rcases h1 : Device.Run d (Cmd.print [(Attr.list, options.List), (Attr.comment, namelist),
      (Attr.address, a)] Attr.id) with ⟨_ | r, d1⟩
    · rw [h1] at p1
      simp only at p1 ⊢
      exact ⟨by rw [p1]; exact hid, by simp [Device.foreign, p1]⟩
    · rw [h1] at p1 p2
      simp only at p1 p2
      have hre := p2 r rfl
      obtain ⟨res⟩ := r
      simp only at hre
      have hid1 : (d1.entries.map Entry.id).Nodup := by rw [p1]; exact hid
      have hfor1 : d1.foreign options.List namelist = d.foreign options.List namelist := by
        simp [Device.foreign, p1]
      rcases res with _ | ⟨re, more⟩
      · exact ⟨hid1, hfor1⟩
      · rcases re with _ | ⟨p, ps⟩
        · exact ⟨hid1, hfor1⟩
        · simp only []
          -- the entry whose id heads the reply
          rcases hm : d.matching [(Attr.list, options.List), (Attr.comment, namelist),
            (Attr.address, a)] with _ | ⟨e, es⟩
          · rw [hm] at hre; simp at hre
          · rw [hm] at hre
            simp only [List.map_cons, List.cons.injEq] at hre
            have hp : p.Value = e.id := by
              have := hre.1.1
              rw [this]; rfl
            obtain ⟨hmem, hown⟩ := matching_owned d [(Attr.list, options.List),
              (Attr.comment, namelist), (Attr.address, a)] options.List namelist
              (by simp) (by simp) e (by rw [hm]; simp)
            rw [hp]
            have hrm := Run_remove d1 e.id
            rcases h2 : Device.Run d1 (Cmd.remove e.id) with ⟨_ | r2, d2⟩
            · rw [h2] at hrm
              simp only at hrm ⊢
              rcases hrm with hrm | hrm
              · exact ⟨by rw [hrm]; exact hid1, by simp [Device.foreign, hrm, p1]⟩
              · refine ⟨?_, ?_⟩
                · rw [hrm]
                  exact hid1.sublist (List.Sublist.map _ (List.filter_sublist _))
                · simp only [Device.foreign, hrm, p1]
                  exact filter_id_foreign d.entries _ _ e hid hmem hown
            · rw [h2] at hrm
              simp only at hrm ⊢
              have hid2 : (d2.entries.map Entry.id).Nodup := by
                rcases hrm with hrm | hrm
                · rw [hrm]; exact hid1
                · rw [hrm]
                  exact hid1.sublist (List.Sublist.map _ (List.filter_sublist _))
              have hfor2 : d2.foreign options.List namelist = d.foreign options.List namelist := by
                rcases hrm with hrm | hrm
                · simp [Device.foreign, hrm, p1]
                · simp only [Device.foreign, hrm, p1]
                  exact filter_id_foreign d.entries _ _ e hid hmem hown
              obtain ⟨i1, i2⟩ := ih d2 hid2
              exact ⟨i1, by rw [i2, hfor2]⟩

/-- The loop over `needadd`, run against the device, keeps the foreign
entries. -/
theorem addLoop_frame (options : Opts) (namelist : String) :
    ∀ (l : List String) (d : Device),
      (addLoop deviceClient options namelist l d).2.1.foreign options.List namelist
        = d.foreign options.List namelist := by
  intro l
  induction l with
  | nil => intro d; rfl
  | cons a rest ih =>
    intro d
    simp only [addLoop]
    have hrun : deviceClient.Run = Device.Run := rfl
    rw [hrun]
    have hadd := Run_add d options.List a namelist
    have hfor : ∀ d1 : Device, (d1.entries = d.entries ∨
        ∃ id, d1.entries = d.entries ++ [⟨id, a, options.List, namelist⟩]) →
        d1.foreign options.List namelist = d.foreign options.List namelist := by
      intro d1 h
      rcases h with h | ⟨id, h⟩
      · simp [Device.foreign, h]
      · simp [Device.foreign, h, List.filter_append, Entry.owned]
    rcases h1 : Device.Run d (Cmd.add options.List a namelist) with ⟨_ | r, d1⟩
    · rw [h1] at hadd
      exact hfor d1 hadd
    · rw [h1] at hadd
      simp only at hadd ⊢
      rw [ih d1]
      exact hfor d1 hadd

/-- `ROSUpdate`, run against the device, keeps the foreign entries. -/
theorem ROSUpdate_frame (options : Opts) (dialErr : Option String)
    (file : Except String String) (d : Device) (as : String)
    (hid : (d.entries.map Entry.id).Nodup) :
    (ROSUpdate deviceClient options dialErr file d as).state.foreign options.List ("ASN" ++ as)
      = d.foreign options.List ("ASN" ++ as) := by
  unfold ROSUpdate
  rcases dialErr with _ | e
  · simp only []
    obtain ⟨p1, -⟩ := Run_print d [(Attr.list, options.List), (Attr.comment, "ASN" ++ as)]
      Attr.address
    have hrun : deviceClient.Run = Device.Run := rfl
    rw [hrun]
    rcases h1 : Device.Run d (Cmd.print [(Attr.list, options.List),
      (Attr.comment, "ASN" ++ as)] Attr.address) with ⟨_ | reply, d1⟩
    · rw [h1] at p1
      simp only at p1 ⊢
      simp [Device.foreign, p1]
    · rw [h1] at p1
      simp only at p1 ⊢
      have hid1 : (d1.entries.map Entry.id).Nodup := by rw [p1]; exact hid
      have hfor1 : d1.foreign options.List ("ASN" ++ as) = d.foreign options.List ("ASN" ++ as) := by
        simp [Device.foreign, p1]
      rcases readAddresses reply.Re with _ | addresses
      · exact hfor1
      · simp only []
        rcases file with e | content
        · exact hfor1
        · simp only []
          rcases diffLists (Slice.ofList addresses) (Slice.ofList (scanLines content))
            with _ | ⟨needremove, needadd⟩
          · exact hfor1
          · simp only []
            obtain ⟨r1, r2⟩ := removeLoop_frame options ("ASN" ++ as) needremove d1 hid1
            rcases hrem : removeLoop deviceClient options ("ASN" ++ as) needremove d1
              with ⟨x, d2, tr⟩
            rw [hrem] at r1 r2
            simp only at r1 r2
            rcases x with _ | x
            · simp only []
              have a1 := addLoop_frame options ("ASN" ++ as) needadd d2
              rcases hadd : addLoop deviceClient options ("ASN" ++ as) needadd d2
                with ⟨x2, d3, tr2⟩
              rw [hadd] at a1
              simp only at a1
              rcases x2 with _ | x2
              · simp only []
                rw [a1, r2, hfor1]
              · simp only []
                rw [a1, r2, hfor1]
            · simp only []
              rw [r2, hfor1]
  · rfl

/-- C3. With the device as a collection of entries with unique ids, for every
ASN `as` and every device state: every query `ROSUpdate(as)` sends is
filtered by `list = options.List` and `comment = "ASN" + as` and therefore
returns only entries with that list and comment; every entry it adds carries
that list and comment; every entry it removes has that list and comment; and
the entries with another list or another comment are, in order, the same
before and after. -/
theorem ROSUpdate_touches_only_tagged (options : Opts) (dialErr : Option String)
    (file : Except String String) (d : Device) (as : String)
    (hid : (d.entries.map Entry.id).Nodup) :
    (∀ (query : List (Attr × String)) (p : Attr) (e : Option String),
      (Cmd.print query p, e) ∈ (ROSUpdate deviceClient options dialErr file d as).trace →
      ((Attr.list, options.List) ∈ query ∧ (Attr.comment, "ASN" ++ as) ∈ query) ∧
      ∀ (d1 : Device), ∀ x ∈ d1.matching query,
        x.list = options.List ∧ x.comment = "ASN" ++ as) ∧
    (∀ (list address comment : String) (e : Option String),
      (Cmd.add list address comment, e)
        ∈ (ROSUpdate deviceClient options dialErr file d as).trace →
      list = options.List ∧ comment = "ASN" ++ as) ∧
    (∀ x ∈ d.entries, x ∉ (ROSUpdate deviceClient options dialErr file d as).state.entries →
      x.list = options.List ∧ x.comment = "ASN" ++ as) ∧
    (∀ x ∈ (ROSUpdate deviceClient options dialErr file d as).state.entries, x ∉ d.entries →
      x.list = options.List ∧ x.comment = "ASN" ++ as) ∧
    (ROSUpdate deviceClient options dialErr file d as).state.entries.filter
        (fun x => decide (x.list ≠ options.List ∨ x.comment ≠ "ASN" ++ as))
      = d.entries.filter (fun x => decide (x.list ≠ options.List ∨ x.comment ≠ "ASN" ++ as)) := by
  have hsc := ROSUpdate_scoped deviceClient options dialErr file d as
  have hfr := ROSUpdate_frame options dialErr file d as hid
  have hpred : (fun x : Entry => decide (x.list ≠ options.List ∨ x.comment ≠ "ASN" ++ as))
      = (fun x : Entry => !x.owned options.List ("ASN" ++ as)) := by
    funext x
    simp only [Entry.owned, ne_eq]
    by_cases h1 : x.list = options.List <;> by_cases h2 : x.comment = "ASN" ++ as <;>
      simp [h1, h2]
  have hfr2 : (ROSUpdate deviceClient options dialErr file d as).state.entries.filter
      (fun x => !x.owned options.List ("ASN" ++ as))
      = d.entries.filter (fun x => !x.owned options.List ("ASN" ++ as)) := hfr
  have hown : ∀ x : Entry, ¬ (x.owned options.List ("ASN" ++ as) = true) ∨
      (x.list = options.List ∧ x.comment = "ASN" ++ as) := by
    intro x
    by_cases h : x.owned options.List ("ASN" ++ as) = true
    · right; simpa [Entry.owned] using h
    · left; exact h
  refine ⟨?_, ?_, ?_, ?_, ?_⟩
  · intro query p e hm
    have h := hsc _ hm
    simp only [Cmd.scoped, decide_eq_true_eq] at h
    refine ⟨h, ?_⟩
    intro d1 x hx
    have := (matching_owned d1 query options.List ("ASN" ++ as) h.1 h.2 x hx).2
    simpa [Entry.owned] using this
  · intro list address comment e hm
    have h := hsc _ hm
    simpa [Cmd.scoped] using h
  · intro x hx hnot
    rcases hown x with h | h
    · exfalso
      have hin : x ∈ d.entries.filter (fun x => !x.owned options.List ("ASN" ++ as)) := by
        simp [List.mem_filter, hx, h]
      rw [← hfr2] at hin
      exact hnot (List.mem_filter.1 hin).1
    · exact h
  · intro x hx hnot
    rcases hown x with h | h
    · exfalso
      have hin : x ∈ (ROSUpdate deviceClient options dialErr file d as).state.entries.filter
          (fun x => !x.owned options.List ("ASN" ++ as)) := by
        simp [List.mem_filter, hx, h]
      rw [hfr2] at hin
      exact hnot (List.mem_filter.1 hin).1
    · exact h
  · rw [hpred]; exact hfr2

/-! ## The loop of `main` -/

/-- What the loop body records for one ASN. -/
theorem loopBody_calls {σ : Type} (c : Client σ) (options : Opts) (w : IterEnv σ)
    (as : String) :
    (loopBody c options w as).1.as = as ∧
    (loopBody c options w as).1.live = CacheLive options w.stat w.secNow as ∧
    ((loopBody c options w as).1.live = false →
      (loopBody c options w as).1.update = some (UpdateCache options w.stat w.fetch as)) ∧
    ((loopBody c options w as).1.live = true → (loopBody c options w as).1.update = none) ∧
    (((loopBody c options w as).1.live = true ∨
        ∃ written, (loopBody c options w as).1.update = some (.returned true written)) →
      (loopBody c options w as).1.ros
        = some (ROSUpdate c options w.dialErr w.file w.dev as)) ∧
    (¬ ((loopBody c options w as).1.live = true ∨
        ∃ written, (loopBody c options w as).1.update = some (.returned true written)) →
      (loopBody c options w as).1.ros = none) := by
  have hros : ∀ (live : Bool) (u : Option UpdateResult),
      (rosStep c options w as live u).1
        = ⟨as, live, u, some (ROSUpdate c options w.dialErr w.file w.dev as)⟩ := by
    intro live u
    simp only [rosStep]
    split <;> rfl
  unfold loopBody
  rcases hl : CacheLive options w.stat w.secNow as with _ | _
  · simp only [beq_self_eq_true, if_true]
    rcases hu : UpdateCache options w.stat w.fetch as with _ | ⟨v, written⟩
    · simp
    · rcases v with _ | _
      · simp
      · simp [hros]
  · simp [hros]

/-- The record of iteration `i` of the loop is the record of the loop body
for the `i`-th ASN. -/
theorem mainLoop_record {σ : Type} (c : Client σ) (options : Opts) (world : Nat → IterEnv σ) :
    ∀ (asns : List String) (k i : Nat) (r : AsnRun σ),
      (mainLoop c options world k asns).1[i]? = some r →
      ∃ as, asns[i]? = some as ∧ r = (loopBody c options (world (k + i)) as).1 := by
  intro asns
  induction asns with
  | nil => intro k i r h; simp [mainLoop] at h
  | cons a rest ih =>
    intro k i r h
    simp only [mainLoop] at h
    rcases hb : loopBody c options (world k) a with ⟨r0, e⟩
    rw [hb] at h
    rcases e with _ | e
    · simp only at h
      rcases i with _ | i
      · simp at h
        exact ⟨a, by simp, by rw [Nat.add_zero, hb, h]⟩
      · simp at h
        obtain ⟨as, h1, h2⟩ := ih (k + 1) i r h
        exact ⟨as, by simpa using h1, by rw [h2]; congr 3; omega⟩
    · simp only at h
      rcases i with _ | i
      · simp at h
        exact ⟨a, by simp, by rw [Nat.add_zero, hb, h]⟩
      · simp at h

/-- C8. For every ASN the loop of `main` reaches (iteration `i`, record `r`):
`UpdateCache` is called exactly when `CacheLive` returned false, and
`ROSUpdate` is called exactly when `CacheLive` returned true or `UpdateCache`
returned true.  So after a stale or absent cache whose refresh does not
return true no sentence is sent to the device for that ASN, and with a live
cache nothing is fetched. -/
theorem main_calls_per_asn {σ : Type} (c : Client σ) (options : Opts)
    (world : Nat → IterEnv σ) (asns : List String) (k i : Nat) (r : AsnRun σ)
    (h : (mainLoop c options world k asns).1[i]? = some r) :
    ∃ as, asns[i]? = some as ∧ r.as = as ∧
      r.live = CacheLive options (world (k + i)).stat (world (k + i)).secNow as ∧
      (r.live = false →
        r.update = some (UpdateCache options (world (k + i)).stat (world (k + i)).fetch as)) ∧
      (r.live = true → r.update = none) ∧
      ((r.live = true ∨ ∃ written, r.update = some (.returned true written)) →
        r.ros = some (ROSUpdate c options (world (k + i)).dialErr (world (k + i)).file
          (world (k + i)).dev as)) ∧
      (¬ (r.live = true ∨ ∃ written, r.update = some (.returned true written)) →
        r.ros = none) := by
  obtain ⟨as, h1, h2⟩ := mainLoop_record c options world asns k i r h
  refine ⟨as, h1, ?_⟩
  rw [h2]
  exact loopBody_calls c options (world (k + i)) as

/-! ## Runs on the sample device -/

/-- C6. When the addresses the device returns for the tag and the lines of
the cache file are the same sequence `l`, lines 109-110 compute
`needremove = []` and `needadd = []`, and `ROSUpdate` sends nothing but its
first query: no `remove`, no `add`; it returns nil. -/
theorem ROSUpdate_synchronised {σ : Type} (c : Client σ) (options : Opts) (s s1 : σ)
    (as : String) (reply : Reply) (l : List String) (content : String)
    (hrun : c.Run s (Cmd.print [(Attr.list, options.List), (Attr.comment, "ASN" ++ as)]
      Attr.address) = (.ok reply, s1))
    (hread : readAddresses reply.Re = some l)
    (hfile : scanLines content = l) :
    diffLists (Slice.ofList l) (Slice.ofList l) = some ([], []) ∧
    ROSUpdate c options none (.ok content) s as
      = ⟨.returned none, s1,
          [(Cmd.print [(Attr.list, options.List), (Attr.comment, "ASN" ++ as)] Attr.address,
            none)]⟩ := by
  refine ⟨diffLists_self l, ?_⟩
  simp [ROSUpdate, hrun, hread, hfile, diffLists_self, removeLoop, addLoop]

/-- C6, on the sample device, whose entries tagged `ASN64500` in `bogons`
are `10.0.0.0/8` and `12.0.0.0/8`, with a cache file of the same two lines:
one query is sent and the device is left as it was. -/
theorem ROSUpdate_synchronised_witness :
    diffLists (Slice.ofList ["10.0.0.0/8", "12.0.0.0/8"])
      (Slice.ofList ["10.0.0.0/8", "12.0.0.0/8"]) = some ([], []) ∧
    ROSUpdate deviceClient sampleOpts none (.ok "10.0.0.0/8\n12.0.0.0/8\n") sampleDevice "64500"
      = ⟨.returned none, sampleDevice,
          [(Cmd.print [(Attr.list, "bogons"), (Attr.comment, "ASN64500")] Attr.address,
            none)]⟩ :=
  ROSUpdate_synchronised deviceClient sampleOpts sampleDevice sampleDevice "64500"
    ⟨[[⟨"address", "10.0.0.0/8"⟩], [⟨"address", "12.0.0.0/8"⟩]]⟩
    ["10.0.0.0/8", "12.0.0.0/8"] "10.0.0.0/8\n12.0.0.0/8\n" rfl rfl (by decide)

/-- C5, at the duplicate-free lists `current = [10.0.0.0/8, 12.0.0.0/8]` (the
sample device) and `desired = [10.0.0.0/8]` (the cache file): `ROSUpdate`
removes `12.0.0.0/8` and then adds `10.0.0.0/8`, which the device still
holds, so the tagged entries end as `10.0.0.0/8` twice and not as `desired`. -/
theorem ROSUpdate_readds_present_address :
    ["10.0.0.0/8", "12.0.0.0/8"].Nodup ∧ ["10.0.0.0/8"].Nodup ∧
    ((sampleDevice.matching [(Attr.list, "bogons"), (Attr.comment, "ASN64500")]).map
      Entry.address = ["10.0.0.0/8", "12.0.0.0/8"]) ∧
    scanLines "10.0.0.0/8\n" = ["10.0.0.0/8"] ∧
    (ROSUpdate deviceClient sampleOpts none (.ok "10.0.0.0/8\n") sampleDevice "64500").trace
      = [(Cmd.print [(Attr.list, "bogons"), (Attr.comment, "ASN64500")] Attr.address, none),
         (Cmd.print [(Attr.list, "bogons"), (Attr.comment, "ASN64500"),
            (Attr.address, "12.0.0.0/8")] Attr.id, none),
         (Cmd.remove "*2", none),
         (Cmd.add "bogons" "10.0.0.0/8" "ASN64500", none)] ∧
    (((ROSUpdate deviceClient sampleOpts none (.ok "10.0.0.0/8\n") sampleDevice
        "64500").state.matching [(Attr.list, "bogons"), (Attr.comment, "ASN64500")]).map
      Entry.address = ["10.0.0.0/8", "10.0.0.0/8"]) := by
  decide

/-- C7, at the ASN list `64500,64501` with no cache file and an unreachable
lookup service: `UpdateCache("64500")` ends the process in `log.Fatal`, the
loop records the first ASN only and `64501` is never processed. -/
theorem main_stops_at_failed_refresh :
    splitComma sampleOpts.ASN.data [] = ["64500", "64501"] ∧
    UpdateCache sampleOpts (fun _ => .notExist) fetchTransportError "64500" = .fatal ∧
    (main deviceClient sampleOpts worldOffline).2 = .exited ∧
    (main deviceClient sampleOpts worldOffline).1.map (fun r => r.as) = ["64500"] ∧
    (main deviceClient sampleOpts worldOffline).1.map (fun r => r.ros.isSome) = [false] := by
  decide

/-- C3, on the sample device with the cache `12.0.0.0/8`, `13.0.0.0/8`: the
entry `*1` of AS64500 is removed and `13.0.0.0/8` is added, while the entry of
AS64501 with the address `12.0.0.0/8` and the entry of the list `other` stay. -/
theorem ROSUpdate_touches_only_tagged_witness :
    (sampleDevice.entries.map Entry.id).Nodup ∧
    (ROSUpdate deviceClient sampleOpts none (.ok "12.0.0.0/8\n13.0.0.0/8\n") sampleDevice
        "64500").state.entries
      = [⟨"*2", "12.0.0.0/8", "bogons", "ASN64500"⟩,
         ⟨"*3", "12.0.0.0/8", "bogons", "ASN64501"⟩,
         ⟨"*4", "12.0.0.0/8", "other", "ASN64500"⟩,
         ⟨"*5", "13.0.0.0/8", "bogons", "ASN64500"⟩] ∧
    (ROSUpdate deviceClient sampleOpts none (.ok "12.0.0.0/8\n13.0.0.0/8\n") sampleDevice
        "64500").state.entries.filter
        (fun x => decide (x.list ≠ sampleOpts.List ∨ x.comment ≠ "ASN" ++ "64500"))
      = sampleDevice.entries.filter
        (fun x => decide (x.list ≠ sampleOpts.List ∨ x.comment ≠ "ASN" ++ "64500")) :=
  ⟨by decide, by decide,
    (ROSUpdate_touches_only_tagged sampleOpts none (.ok "12.0.0.0/8\n13.0.0.0/8\n")
      sampleDevice "64500" (by decide)).2.2.2.2⟩

/-- C8, on a run with live caches: for the second ASN `CacheLive` is true,
`UpdateCache` is not called and `ROSUpdate` is. -/
theorem main_calls_per_asn_witness :
    (mainLoop deviceClient sampleOpts worldFresh 0 ["64500", "64501"]).1[1]?
      = some (loopBody deviceClient sampleOpts (worldFresh 1) "64501").1 ∧
    (loopBody deviceClient sampleOpts (worldFresh 1) "64501").1.live = true ∧
    (loopBody deviceClient sampleOpts (worldFresh 1) "64501").1.update = none ∧
    (loopBody deviceClient sampleOpts (worldFresh 1) "64501").1.ros
      = some (ROSUpdate deviceClient sampleOpts none (.ok "12.0.0.0/8\n13.0.0.0/8\n")
          sampleDevice "64501") :=
  by
    obtain ⟨as, h1, _, _, _, hnone, hros, _⟩ :=
      main_calls_per_asn deviceClient sampleOpts worldFresh ["64500", "64501"] 0 1
        (loopBody deviceClient sampleOpts (worldFresh 1) "64501").1 rfl
    have has : "64501" = as := by simpa using h1
    subst has
    have hl : (loopBody deviceClient sampleOpts (worldFresh 1) "64501").1.live = true := by
      decide
    exact ⟨rfl, hl, hnone hl, hros (Or.inl hl)⟩

/-- C9, on the sample device when its third sentence, the `remove`, fails
with `timeout`: that sentence is the last one sent, `ROSUpdate` returns
`timeout`, and no `add` is sent although `13.0.0.0/8` is missing. -/
theorem ROSUpdate_stops_at_first_failure_witness :
    (ROSUpdate deviceClient sampleOpts none (.ok "12.0.0.0/8\n13.0.0.0/8\n")
        { sampleDevice with faults := [none, none, some "timeout"] } "64500").trace
      = [(Cmd.print [(Attr.list, "bogons"), (Attr.comment, "ASN64500")] Attr.address, none),
         (Cmd.print [(Attr.list, "bogons"), (Attr.comment, "ASN64500"),
            (Attr.address, "10.0.0.0/8")] Attr.id, none)]
        ++ (Cmd.remove "*1", some "timeout") :: [] ∧
    (ROSUpdate deviceClient sampleOpts none (.ok "12.0.0.0/8\n13.0.0.0/8\n")
        { sampleDevice with faults := [none, none, some "timeout"] } "64500").exit
      = .returned (some "timeout") :=
  have ht : (ROSUpdate deviceClient sampleOpts none (.ok "12.0.0.0/8\n13.0.0.0/8\n")
        { sampleDevice with faults := [none, none, some "timeout"] } "64500").trace
      = [(Cmd.print [(Attr.list, "bogons"), (Attr.comment, "ASN64500")] Attr.address, none),
         (Cmd.print [(Attr.list, "bogons"), (Attr.comment, "ASN64500"),
            (Attr.address, "10.0.0.0/8")] Attr.id, none)]
        ++ (Cmd.remove "*1", some "timeout") :: [] := by decide
  ⟨ht, ((ROSUpdate_stops_at_first_failure deviceClient sampleOpts none
      (.ok "12.0.0.0/8\n13.0.0.0/8\n")
      { sampleDevice with faults := [none, none, some "timeout"] } "64500").1 _ _ _ _ ht).2⟩

end ROSASList
